import Mathlib

/-!
Shallow embedding of the room/round core of the chidiya-ud backend
(`src/roomManager.ts`, types from `src/types.ts`), together with proofs of
the specified properties.

Modelling conventions:
* JS `number` timestamps and durations are `Int` (the server uses integer
  epoch milliseconds); the raw settings arguments of `setSettings` are `ℚ`
  so that `Math.floor` is visible.
* `Record<string, T>` objects are association structures: the `players`
  record is a `List Player` (JS objects preserve insertion order and key
  uniqueness; uniqueness of ids is carried as a `Nodup` hypothesis where a
  statement needs it), the `responses` record is a `List (String × Choice)`.
* `undefined`-able fields are `Option`s.
* The global `rooms : Map<string, Room>` is an association list
  `List (String × Room)`; in-place mutation of a room fetched from the map
  becomes an explicit write-back (`updateRoom`).
* Randomness (avatar, room code, prompt choice) is modelled as an explicit
  input, as the spec's design notes direct ("model explicitly as an
  injectable random-source capability").
* The prompt catalog `src/items.ts` is not part of the sources; an `Item`
  carries the fields `nextRound` reads from a catalog entry, and the chosen
  item is an input.
-/

inductive Choice where
  | ud
  | not_ud
deriving DecidableEq, Repr

structure Player where
  id : String
  name : String
  avatar : String
  ready : Bool
  alive : Bool
  respondedAt : Option Int := none
  response : Option Choice := none
  failedAtWord : Option String := none
  failedChoice : Option Choice := none
deriving DecidableEq, Repr

structure RoomSettings where
  roundMs : Int
  intermissionMs : Int
deriving DecidableEq, Repr

/-- One entry of the prompt catalog (`src/items.ts`, absent from the
sources): the fields `nextRound` copies into the round. -/
structure Item where
  id : String
  text : String
  image : Option String := none
  flies : Bool
deriving DecidableEq, Repr

structure Round where
  itemId : String
  itemText : String
  itemImage : Option String
  flies : Bool
  roundStartTs : Int
  deadlineTs : Int
  responses : List (String × Choice)
deriving DecidableEq, Repr

structure RoundResultsDetail where
  choice : Option Choice
  correct : Bool
  inTime : Bool
deriving DecidableEq, Repr

structure RoundResultsSummary where
  itemText : String
  flies : Bool
  perPlayer : List (String × RoundResultsDetail)
deriving DecidableEq, Repr

inductive Status where
  | lobby
  | playing
  | game_over
deriving DecidableEq, Repr

structure Room where
  code : String
  hostId : String
  status : Status
  players : List Player
  round : Option Round := none
  winnerId : Option String := none
  settings : RoomSettings
deriving DecidableEq, Repr

/-- The global registry `rooms : Map<string, Room>`. -/
abbrev Rooms := List (String × Room)

/-- `room.players[id]` (reading). -/
def findPlayer (ps : List Player) (id : String) : Option Player :=
  ps.find? (fun p => p.id == id)

/-- `room.players[id] = p` (writing: overwrite if present, append otherwise,
matching JS object key-assignment semantics). -/
def setPlayer (ps : List Player) (p : Player) : List Player :=
  if ps.any (fun q => q.id == p.id) then
    ps.map (fun q => if q.id == p.id then p else q)
  else
    ps ++ [p]

/-- `rooms.get(code) || null`. -/
def getRoom (rs : Rooms) (code : String) : Option Room :=
  (List.find? (fun e => e.1 == code) rs).map (fun e => e.2)

/-- Write-back of an in-place mutation of the room stored at `code`. -/
def updateRoom (rs : Rooms) (code : String) (room : Room) : Rooms :=
  List.map (fun e => if e.1 == code then (e.1, room) else e) rs

/-- `createRoom(hostId, hostName)`.  The retry loop over random 5-digit
codes is modelled by taking the generated code (and avatar) as input; a
collision with a live code, which the loop would retry past, is a no-op
here. -/
def createRoom (rs : Rooms) (code hostId hostName avatar : String) :
    Room × Rooms :=
  let player : Player :=
    { id := hostId, name := hostName, avatar := avatar, ready := false, alive := true }
  let room : Room :=
    { code := code
      hostId := hostId
      status := .lobby
      players := [player]
      settings := { roundMs := 4000, intermissionMs := 1000 } }
  if (getRoom rs code).isSome then (room, rs) else (room, rs ++ [(code, room)])

/-- `joinRoom(code, id, name)` (the random avatar is an input). -/
def joinRoom (rs : Rooms) (code id name avatar : String) :
    Option Room × Rooms :=
  match getRoom rs code with
  | none => (none, rs)
  | some room =>
    if room.status != Status.lobby then (none, rs)
    else
      let room' := { room with
        players := setPlayer room.players
          { id := id, name := name, avatar := avatar, ready := false, alive := true } }
      (some room', updateRoom rs code room')

/-- `leaveRoom(code, id)`. -/
def leaveRoom (rs : Rooms) (code id : String) : Option Room × Rooms :=
  match getRoom rs code with
  | none => (none, rs)
  | some room =>
    match room.players.filter (fun p => p.id != id) with
    | [] => (none, rs.filter (fun e => e.1 != code))
    | p0 :: rest =>
      let room' := { room with
        players := p0 :: rest
        hostId := if room.hostId == id then p0.id else room.hostId }
      (some room', updateRoom rs code room')

/-- `nextRound(room, now, roundMs, _intermissionMs)`; the randomly chosen
catalog entry is the input `item`.  (The source's `if (!p.alive) p.alive =
false` is a no-op and is omitted.) -/
def nextRound (room : Room) (item : Item) (now roundMs _intermissionMs : Int) :
    Round × Room :=
  let rd : Round :=
    { itemId := item.id
      itemText := item.text
      itemImage := item.image
      flies := item.flies
      roundStartTs := now
      deadlineTs := now + roundMs
      responses := [] }
  let ps := room.players.map (fun p => { p with respondedAt := none, response := none })
  (rd, { room with round := some rd, players := ps })

/-- `startGame(code, now, roundMs, intermissionMs)`. -/
def startGame (rs : Rooms) (code : String) (item : Item)
    (now roundMs intermissionMs : Int) : Option Round × Rooms :=
  match getRoom rs code with
  | none => (none, rs)
  | some room =>
    if room.status != Status.lobby then (none, rs)
    else if room.players.isEmpty then (none, rs)
    else if !(room.players.all (fun p => p.ready)) then (none, rs)
    else
      let started := { room with status := Status.playing }
      let (rd, room') := nextRound started item now roundMs intermissionMs
      (some rd, updateRoom rs code room')

/-- `submitAnswer(room, playerId, choice, serverTs)`; returns the source's
boolean together with the (possibly) mutated room. -/
def submitAnswer (room : Room) (playerId : String) (choice : Choice)
    (serverTs : Int) : Bool × Room :=
  match room.round with
  | none => (false, room)
  | some rd =>
    match findPlayer room.players playerId with
    | none => (false, room)
    | some p =>
      if !p.alive then (false, room)
      else if serverTs < rd.roundStartTs then (false, room)
      else if serverTs > rd.deadlineTs then (false, room)
      else if (List.lookup playerId rd.responses).isSome then (false, room)
      else
        let rd' := { rd with responses := rd.responses ++ [(playerId, choice)] }
        let ps' := room.players.map (fun q =>
          if q.id == playerId then
            { q with response := some choice, respondedAt := some serverTs }
          else q)
        (true, { room with round := some rd', players := ps' })

/-- `r.flies ? 'ud' : 'not_ud'`. -/
def correctAnswer (rd : Round) : Choice :=
  if rd.flies then .ud else .not_ud

/-- `r.responses[p.id]`. -/
def respOf (rd : Round) (p : Player) : Option Choice :=
  List.lookup p.id rd.responses

/-- `resp === correct`. -/
def respOk (rd : Round) (p : Player) : Bool :=
  respOf rd p == some (correctAnswer rd)

/-- `(p.respondedAt ?? Infinity) <= r.deadlineTs`. -/
def respInTime (rd : Round) (p : Player) : Bool :=
  match p.respondedAt with
  | some t => decide (t ≤ rd.deadlineTs)
  | none => false

/-- `!resp || !ok || !inTime`: the elimination test of `settleRound`. -/
def elimB (rd : Round) (p : Player) : Bool :=
  (respOf rd p).isNone || !respOk rd p || !respInTime rd p

/-- The `perPlayer[p.id]` entry `settleRound` writes for `p`. -/
def settleDetail (rd : Round) (p : Player) : RoundResultsDetail :=
  if !p.alive then
    { choice := respOf rd p, correct := false, inTime := true }
  else
    { choice := respOf rd p
      correct := (respOf rd p).isSome && respOk rd p
      inTime := respInTime rd p }

/-- The per-player mutation of `settleRound`'s `forEach` body. -/
def settlePlayer (rd : Round) (p : Player) : Player :=
  if !p.alive then p
  else if elimB rd p then
    { p with
      alive := false
      failedAtWord := if p.failedAtWord.isNone then some rd.itemText else p.failedAtWord
      failedChoice := if p.failedChoice.isNone then respOf rd p else p.failedChoice }
  else p

structure SettleResult where
  eliminated : List String
  survivors : List String
  summary : RoundResultsSummary
deriving DecidableEq, Repr

/-- `settleRound(room, serverTs)` (the source never reads `serverTs`);
returns the source's result record together with the mutated room. -/
def settleRound (room : Room) (_serverTs : Int) : SettleResult × Room :=
  match room.round with
  | none =>
    ({ eliminated := []
       survivors := []
       summary := { itemText := "", flies := false, perPlayer := [] } }, room)
  | some rd =>
    let eliminated :=
      (room.players.filter (fun p => p.alive && elimB rd p)).map (fun p => p.id)
    let survivors :=
      (room.players.filter (fun p => p.alive && !elimB rd p)).map (fun p => p.id)
    let perPlayer := room.players.map (fun p => (p.id, settleDetail rd p))
    let ps' := room.players.map (settlePlayer rd)
    let aliveAfter := ps'.filter (fun p => p.alive)
    let room' :=
      if aliveAfter.length ≤ 1 then
        { room with
          players := ps'
          status := Status.game_over
          winnerId := aliveAfter.head?.map (fun p => p.id) }
      else
        { room with players := ps' }
    ({ eliminated := eliminated
       survivors := survivors
       summary := { itemText := rd.itemText, flies := rd.flies, perPlayer := perPlayer } },
     room')

/-- `setReady(code, playerId, ready)`. -/
def setReady (rs : Rooms) (code playerId : String) (ready : Bool) :
    Option Room × Rooms :=
  match getRoom rs code with
  | none => (none, rs)
  | some room =>
    if room.status != Status.lobby then (some room, rs)
    else
      let room' := { room with
        players := room.players.map (fun p =>
          if p.id == playerId then { p with ready := ready } else p) }
      (some room', updateRoom rs code room')

/-- `Math.max(500, Math.min(8000, Math.floor(roundMs)))`. -/
def clampRoundMs (q : ℚ) : Int :=
  max 500 (min 8000 (Int.floor q))

/-- `Math.max(500, Math.min(5000, Math.floor(intermissionMs)))`. -/
def clampIntermissionMs (q : ℚ) : Int :=
  max 500 (min 5000 (Int.floor q))

/-- `setSettings(code, updater)`: the two optional fields of the updater are
the two `Option ℚ` arguments. -/
def setSettings (rs : Rooms) (code : String) (roundMs intermissionMs : Option ℚ) :
    Option Room × Rooms :=
  match getRoom rs code with
  | none => (none, rs)
  | some room =>
    if room.status != Status.lobby then (some room, rs)
    else
      let s1 := match roundMs with
        | some q => { room.settings with roundMs := clampRoundMs q }
        | none => room.settings
      let s2 := match intermissionMs with
        | some q => { s1 with intermissionMs := clampIntermissionMs q }
        | none => s1
      let room' := { room with settings := s2 }
      (some room', updateRoom rs code room')

/-- `resetToLobby(code)`. -/
def resetToLobby (rs : Rooms) (code : String) : Option Room × Rooms :=
  match getRoom rs code with
  | none => (none, rs)
  | some room =>
    let room' := { room with
      status := Status.lobby
      round := none
      winnerId := none
      players := room.players.map (fun p =>
        { p with
          alive := true
          ready := false
          respondedAt := none
          response := none
          failedAtWord := none
          failedChoice := none }) }
    (some room', updateRoom rs code room')

/-- One client-triggered operation of the core, acting on the registry.
Random inputs (codes, avatars, prompt picks) appear as constructor data. -/
inductive Op where
  | create (code hostId hostName avatar : String)
  | join (code id name avatar : String)
  | leave (code id : String)
  | ready (code playerId : String) (ready : Bool)
  | settings (code : String) (roundMs intermissionMs : Option ℚ)
  | start (code : String) (item : Item) (now roundMs intermissionMs : Int)
  | next (code : String) (item : Item) (now roundMs intermissionMs : Int)
  | answer (code playerId : String) (choice : Choice) (serverTs : Int)
  | settle (code : String) (serverTs : Int)
  | reset (code : String)

/-- Effect of one operation on the registry.  Room-level functions
(`nextRound`, `submitAnswer`, `settleRound`) are applied to the room fetched
by code and written back, as their callers in `index.ts` do through the
shared `Map`. -/
def applyOp (rs : Rooms) : Op → Rooms
  | .create code hostId hostName avatar => (createRoom rs code hostId hostName avatar).2
  | .join code id name avatar => (joinRoom rs code id name avatar).2
  | .leave code id => (leaveRoom rs code id).2
  | .ready code playerId b => (setReady rs code playerId b).2
  | .settings code a b => (setSettings rs code a b).2
  | .start code item now a b => (startGame rs code item now a b).2
  | .next code item now a b =>
    match getRoom rs code with
    | none => rs
    | some room => updateRoom rs code (nextRound room item now a b).2
  | .answer code playerId c ts =>
    match getRoom rs code with
    | none => rs
    | some room => updateRoom rs code (submitAnswer room playerId c ts).2
  | .settle code ts =>
    match getRoom rs code with
    | none => rs
    | some room => updateRoom rs code (settleRound room ts).2
  | .reset code => (resetToLobby rs code).2

/-- The spec's invariant, per room: `round` is present iff `status = playing`. -/
def roundIffPlaying (room : Room) : Prop :=
  room.round.isSome ↔ room.status = Status.playing

/-- The direction of the invariant the code actually maintains: a playing
room has a current round. -/
def playingHasRound (rs : Rooms) : Prop :=
  ∀ e ∈ rs, e.2.status = Status.playing → e.2.round.isSome = true

instance (room : Room) : Decidable (roundIffPlaying room) := by
  unfold roundIffPlaying
  infer_instance

instance (rs : Rooms) : Decidable (playingHasRound rs) := by
  unfold playingHasRound
  infer_instance

/-! ### Basic facts about the registry and the players list -/

theorem getRoom_mem {rs : Rooms} {code : String} {room : Room}
    (h : getRoom rs code = some room) : (code, room) ∈ rs := by
  induction rs with
  | nil => simp [getRoom] at h
  | cons e t ih =>
    by_cases hc : e.1 = code
    · unfold getRoom at h
      rw [List.find?_cons_of_pos _ (by simp [hc])] at h
      have h2 : e.2 = room := by simpa using h
      have he : e = (code, room) := Prod.ext_iff.mpr ⟨hc, h2⟩
      rw [← he]
      exact List.mem_cons_self e t
    · unfold getRoom at h
      rw [List.find?_cons_of_neg _ (by simp [hc])] at h
      exact List.mem_cons_of_mem _ (ih h)

theorem getRoom_updateRoom_self {rs : Rooms} {code : String} {room : Room}
    (h : getRoom rs code = some room) (room' : Room) :
    getRoom (updateRoom rs code room') code = some room' := by
  unfold getRoom updateRoom
  rw [List.find?_map]
  have hg : ((fun e => e.1 == code) ∘ fun e : String × Room =>
      if e.1 == code then (e.1, room') else e) = (fun e => e.1 == code) := by
    funext e
    by_cases hc : e.1 = code <;> simp [hc]
  rw [hg]
  unfold getRoom at h
  rcases he : List.find? (fun e => e.1 == code) rs with _ | e
  · rw [he] at h; simp at h
  · rw [he]
    have hpred := List.find?_some he
    simp only [beq_iff_eq] at hpred
    simp [hpred]

theorem getRoom_eraseRoom (rs : Rooms) (code : String) :
    getRoom (rs.filter (fun e => e.1 != code)) code = none := by
  unfold getRoom
  rw [Option.map_eq_none', List.find?_eq_none]
  intro e he
  have := (List.mem_filter.mp he).2
  simp only [bne_iff_ne, ne_eq, decide_eq_true_eq] at this
  simp [this]

theorem findPlayer_erase (ps : List Player) (id : String) :
    findPlayer (ps.filter (fun p => p.id != id)) id = none := by
  unfold findPlayer
  rw [List.find?_eq_none]
  intro p hp
  have := (List.mem_filter.mp hp).2
  simp only [bne_iff_ne, ne_eq, decide_eq_true_eq] at this
  simp [this]

theorem findPlayer_map_of_id {f : Player → Player} (hf : ∀ q, (f q).id = q.id)
    (ps : List Player) (pid : String) :
    findPlayer (ps.map f) pid = (findPlayer ps pid).map f := by
  unfold findPlayer
  induction ps with
  | nil => rfl
  | cons a t ih =>
    simp only [List.map_cons, List.find?_cons, hf a]
    cases h : (a.id == pid) <;> simp [h, ih]

/-! ### Sample data used by the witnesses -/

def samplePlayer : Player :=
  { id := "p1", name := "Alice", avatar := "A", ready := false, alive := true }

def samplePlayer2 : Player :=
  { id := "p2", name := "Bob", avatar := "B", ready := false, alive := true }

def sampleLobby : Room :=
  { code := "11111"
    hostId := "p1"
    status := .lobby
    players := [samplePlayer]
    settings := { roundMs := 4000, intermissionMs := 1000 } }

def sampleRound : Round :=
  { itemId := "i1"
    itemText := "chidiya"
    itemImage := none
    flies := true
    roundStartTs := 0
    deadlineTs := 4000
    responses := [] }

def roomTwo : Room :=
  { code := "22222"
    hostId := "p1"
    status := .playing
    players := [samplePlayer, samplePlayer2]
    round := some sampleRound
    settings := { roundMs := 4000, intermissionMs := 1000 } }

def rsTwo : Rooms := [("22222", roomTwo)]

def roomTwoLeft : Room :=
  { roomTwo with players := [samplePlayer2], hostId := "p2" }

theorem clampRoundMs_bounds (q : ℚ) :
    500 ≤ clampRoundMs q ∧ clampRoundMs q ≤ 8000 :=
  ⟨le_max_left _ _, max_le (by norm_num) (min_le_left _ _)⟩

theorem clampIntermissionMs_bounds (q : ℚ) :
    500 ≤ clampIntermissionMs q ∧ clampIntermissionMs q ≤ 5000 :=
  ⟨le_max_left _ _, max_le (by norm_num) (min_le_left _ _)⟩

/-- C7: `setSettings` clamps every written value with integer arithmetic: a
`roundMs` argument is floored and clamped into `[500, 8000]` (100 becomes
500, 100000 becomes 8000), an `intermissionMs` argument is floored and
clamped into `[500, 5000]`; when the room's status is not `lobby` the call
leaves the room (and the registry) entirely unchanged. -/
theorem spec_C7 (rs : Rooms) (code : String) (room : Room)
    (oq oi : Option ℚ) (q r : ℚ)
    (hroom : getRoom rs code = some room) :
    (room.status ≠ Status.lobby → setSettings rs code oq oi = (some room, rs)) ∧
    (room.status = Status.lobby →
      ∀ room', (setSettings rs code (some q) (some r)).1 = some room' →
        room'.settings.roundMs = max 500 (min 8000 (Int.floor q)) ∧
        room'.settings.intermissionMs = max 500 (min 5000 (Int.floor r)) ∧
        500 ≤ room'.settings.roundMs ∧ room'.settings.roundMs ≤ 8000 ∧
        500 ≤ room'.settings.intermissionMs ∧ room'.settings.intermissionMs ≤ 5000) ∧
    clampRoundMs 100 = 500 ∧ clampRoundMs 100000 = 8000 := by
  refine ⟨?_, ?_, ?_, ?_⟩
  · intro h
    unfold setSettings
    rw [hroom]
    have hb : (room.status != Status.lobby) = true := by simpa [bne_iff_ne] using h
    simp [hb]
  · intro h room' hr
    unfold setSettings at hr
    rw [hroom] at hr
    have hb : (room.status != Status.lobby) = false := by simp [bne, h]
    simp only [hb, Bool.false_eq_true, if_false, Option.some.injEq] at hr
    subst hr
    refine ⟨rfl, rfl, ?_⟩
    have h1 := clampRoundMs_bounds q
    have h2 := clampIntermissionMs_bounds r
    exact ⟨h1.1, h1.2, h2.1, h2.2⟩
  · show max 500 (min 8000 (Int.floor (100 : ℚ))) = 500
    norm_num
  · show max 500 (min 8000 (Int.floor (100000 : ℚ))) = 8000
    norm_num

theorem spec_C7_witness :
    getRoom [("11111", sampleLobby)] "11111" = some sampleLobby ∧
    clampRoundMs 100 = 500 ∧ clampRoundMs 100000 = 8000 :=
  ⟨rfl, (spec_C7 [("11111", sampleLobby)] "11111" sampleLobby none none
    100 100 rfl).2.2⟩

/-- C10: when `leaveRoom` leaves the room non-empty, only the players list
and possibly `hostId` change: `status`, `round`, `winnerId`, `settings` (and
the code) are untouched — in particular a mid-game departure never settles
the round, never moves the room to `game_over` and never sets a winner. -/
theorem spec_C10 (rs : Rooms) (code id : String) (room room' : Room)
    (hroom : getRoom rs code = some room)
    (h : (leaveRoom rs code id).1 = some room') :
    room'.status = room.status ∧ room'.round = room.round ∧
    room'.winnerId = room.winnerId ∧ room'.settings = room.settings ∧
    room'.code = room.code ∧
    room'.players = room.players.filter (fun p => p.id != id) := by
  unfold leaveRoom at h
  split at h
  next heq => rw [hroom] at heq; simp at heq
  next r heq =>
    rw [hroom] at heq
    obtain rfl : room = r := by injection heq
    split at h
    next hfil => simp at h
    next p0 rest hfil =>
      simp only [Option.some.injEq] at h
      rw [← h, hfil]
      exact ⟨rfl, rfl, rfl, rfl, rfl, rfl⟩

theorem spec_C10_witness :
    (getRoom rsTwo "22222" = some roomTwo ∧
      (leaveRoom rsTwo "22222" "p1").1 = some roomTwoLeft) ∧
    roomTwoLeft.status = roomTwo.status ∧ roomTwoLeft.round = roomTwo.round ∧
    roomTwoLeft.winnerId = roomTwo.winnerId ∧
    roomTwoLeft.settings = roomTwo.settings ∧
    roomTwoLeft.code = roomTwo.code ∧
    roomTwoLeft.players = roomTwo.players.filter (fun p => p.id != "p1") :=
  ⟨⟨rfl, rfl⟩, spec_C10 rsTwo "22222" "p1" roomTwo roomTwoLeft rfl rfl⟩

/-- C6: `leaveRoom` removes the player with the given id; if the room
becomes empty it is destroyed and `null` is returned (a subsequent `getRoom`
returns `null`); if the departing player was the host and members remain,
`hostId` is reassigned to some current remaining member. -/
theorem spec_C6 (rs : Rooms) (code id : String) (room : Room)
    (hroom : getRoom rs code = some room) :
    (room.players.filter (fun p => p.id != id) = [] →
      (leaveRoom rs code id).1 = none ∧
      getRoom (leaveRoom rs code id).2 code = none) ∧
    (∀ room', (leaveRoom rs code id).1 = some room' →
      room'.players = room.players.filter (fun p => p.id != id) ∧
      findPlayer room'.players id = none ∧
      (room.hostId = id → room'.hostId ∈ room'.players.map (fun p => p.id))) := by
  constructor
  · intro hfil
    unfold leaveRoom
    split
    next heq => rw [hroom] at heq; simp at heq
    next r heq =>
      rw [hroom] at heq
      obtain rfl : room = r := by injection heq
      split
      next => exact ⟨rfl, getRoom_eraseRoom rs code⟩
      next p0 rest hfil2 => rw [hfil] at hfil2; simp at hfil2
  · intro room' h
    unfold leaveRoom at h
    split at h
    next heq => rw [hroom] at heq; simp at heq
    next r heq =>
      rw [hroom] at heq
      obtain rfl : room = r := by injection heq
      split at h
      next hfil => simp at h
      next p0 rest hfil =>
        simp only [Option.some.injEq] at h
        refine ⟨?_, ?_, ?_⟩
        · rw [← h, hfil]
        · rw [← h]
          show findPlayer (p0 :: rest) id = none
          rw [← hfil]
          exact findPlayer_erase _ _
        · intro hh
          rw [← h]
          simp [hh]

theorem spec_C6_witness :
    getRoom [("11111", sampleLobby)] "11111" = some sampleLobby ∧
    (leaveRoom [("11111", sampleLobby)] "11111" "p1").1 = none ∧
    getRoom (leaveRoom [("11111", sampleLobby)] "11111" "p1").2 "11111" = none :=
  ⟨rfl, (spec_C6 [("11111", sampleLobby)] "11111" "p1" sampleLobby rfl).1 rfl⟩


/-- C9: joining a lobby room with an id that is already a member (the host's
own id included) does not fail: the existing Player record is overwritten in
place (no new entry) by a fresh one with `ready = false`, `alive = true` and
the new name, and `hostId` is unchanged. -/
theorem spec_C9 (rs : Rooms) (code id name avatar : String) (room : Room)
    (p : Player) (hroom : getRoom rs code = some room)
    (hlobby : room.status = Status.lobby)
    (hmem : findPlayer room.players id = some p) :
    ∃ room', (joinRoom rs code id name avatar).1 = some room' ∧
      room'.hostId = room.hostId ∧
      findPlayer room'.players id =
        some { id := id, name := name, avatar := avatar, ready := false, alive := true } ∧
      room'.players.length = room.players.length := by
  have hb : (room.status != Status.lobby) = false := by simp [bne, hlobby]
  have hmem' : List.find? (fun q => q.id == id) room.players = some p := hmem
  have hpmem := List.mem_of_find?_eq_some hmem'
  have hpid0 := List.find?_some hmem'
  have hpid : (p.id == id) = true := hpid0
  have hany : room.players.any
      (fun q => q.id ==
        ({ id := id, name := name, avatar := avatar, ready := false, alive := true } : Player).id) =
      true :=
    List.any_eq_true.mpr ⟨p, hpmem, hpid⟩
  have hf : ∀ q : Player,
      ((fun q => if q.id ==
          ({ id := id, name := name, avatar := avatar, ready := false, alive := true } : Player).id
        then ({ id := id, name := name, avatar := avatar, ready := false, alive := true } : Player)
        else q) q).id = q.id := by
    intro q
    dsimp only
    split
    next h => exact (beq_iff_eq.mp h).symm
    next => rfl
  refine ⟨{ room with players := setPlayer room.players { id := id, name := name, avatar := avatar, ready := false, alive := true } }, ?_, rfl, ?_, ?_⟩
  · unfold joinRoom
    rw [hroom]
    simp [hb]
  · show findPlayer (setPlayer room.players
      { id := id, name := name, avatar := avatar, ready := false, alive := true }) id = _
    unfold setPlayer
    rw [if_pos hany, findPlayer_map_of_id hf, hmem]
    simp [beq_iff_eq.mp hpid]
  · show (setPlayer room.players
      { id := id, name := name, avatar := avatar, ready := false, alive := true }).length = _
    unfold setPlayer
    rw [if_pos hany]
    exact List.length_map _ _

theorem spec_C9_witness :
    (getRoom [("11111", sampleLobby)] "11111" = some sampleLobby ∧
      sampleLobby.status = Status.lobby ∧
      findPlayer sampleLobby.players "p1" = some samplePlayer) ∧
    (∃ room', (joinRoom [("11111", sampleLobby)] "11111" "p1" "Alicia" "C").1 = some room' ∧
      room'.hostId = sampleLobby.hostId ∧
      findPlayer room'.players "p1" =
        some { id := "p1", name := "Alicia", avatar := "C", ready := false, alive := true } ∧
      room'.players.length = sampleLobby.players.length) :=
  ⟨⟨rfl, rfl, rfl⟩,
    spec_C9 [("11111", sampleLobby)] "11111" "p1" "Alicia" "C" sampleLobby
      samplePlayer rfl rfl rfl⟩

/-- C5: `startGame` fails and changes no state unless the room exists, is in
`lobby`, has at least one player and every player is ready; on success the
room's status becomes `playing` and the first round has
`roundStartTs = now` and `deadlineTs = now + roundMs`. -/
theorem spec_C5 (rs : Rooms) (code : String) (item : Item)
    (now roundMs interMs : Int) :
    ((startGame rs code item now roundMs interMs).1 = none ↔
      getRoom rs code = none ∨
      ∃ room, getRoom rs code = some room ∧
        (room.status ≠ Status.lobby ∨ room.players = [] ∨
         ∃ p ∈ room.players, p.ready = false)) ∧
    ((startGame rs code item now roundMs interMs).1 = none →
      (startGame rs code item now roundMs interMs).2 = rs) ∧
    (∀ rd, (startGame rs code item now roundMs interMs).1 = some rd →
      rd.roundStartTs = now ∧ rd.deadlineTs = now + roundMs ∧
      ∃ room', getRoom (startGame rs code item now roundMs interMs).2 code = some room' ∧
        room'.status = Status.playing ∧ room'.round = some rd) := by
  rcases hg : getRoom rs code with _ | room
  · have hsg : startGame rs code item now roundMs interMs = (none, rs) := by
      unfold startGame
      rw [hg]
    rw [hsg]
    refine ⟨?_, fun _ => rfl, ?_⟩
    · simp [hg]
    · intro rd h
      simp at h
  · by_cases hst : room.status = Status.lobby
    case neg =>
      have hb : (room.status != Status.lobby) = true := by simpa [bne_iff_ne] using hst
      have hsg : startGame rs code item now roundMs interMs = (none, rs) := by
        unfold startGame
        rw [hg]
        simp [hb]
      rw [hsg]
      refine ⟨?_, fun _ => rfl, ?_⟩
      · exact ⟨fun _ => Or.inr ⟨room, rfl, Or.inl hst⟩, fun _ => rfl⟩
      · intro rd h
        simp at h
    case pos =>
      have hb : (room.status != Status.lobby) = false := by simp [bne, hst]
      by_cases hemp : room.players = []
      · have he : room.players.isEmpty = true := by simp [hemp]
        have hsg : startGame rs code item now roundMs interMs = (none, rs) := by
          unfold startGame
          rw [hg]
          simp [hb, he]
        rw [hsg]
        refine ⟨?_, fun _ => rfl, ?_⟩
        · exact ⟨fun _ => Or.inr ⟨room, rfl, Or.inr (Or.inl hemp)⟩, fun _ => rfl⟩
        · intro rd h
          simp at h
      · have he : room.players.isEmpty = false := by simp [hemp]
        by_cases hrdy : ∃ p ∈ room.players, p.ready = false
        · have ha : room.players.all (fun p => p.ready) = false := by
            rcases hrdy with ⟨p, hp, hpr⟩
            cases h2 : room.players.all (fun p => p.ready)
            · rfl
            · rw [List.all_eq_true] at h2
              have := h2 p hp
              rw [hpr] at this
              exact absurd this (by simp)
          have hsg : startGame rs code item now roundMs interMs = (none, rs) := by
            unfold startGame
            rw [hg]
            simp [hb, he, ha]
          rw [hsg]
          refine ⟨?_, fun _ => rfl, ?_⟩
          · exact ⟨fun _ => Or.inr ⟨room, rfl, Or.inr (Or.inr hrdy)⟩, fun _ => rfl⟩
          · intro rd h
            simp at h
        · have ha : room.players.all (fun p => p.ready) = true := by
            rw [List.all_eq_true]
            intro p hp
            cases h2 : p.ready
            · exact absurd ⟨p, hp, h2⟩ hrdy
            · rfl
          have hsg : startGame rs code item now roundMs interMs =
              (some (nextRound { room with status := Status.playing } item now roundMs interMs).1,
               updateRoom rs code (nextRound { room with status := Status.playing } item now roundMs interMs).2) := by
            unfold startGame
            rw [hg]
            simp [hb, he, ha]
          rw [hsg]
          refine ⟨?_, ?_, ?_⟩
          · constructor
            · intro h
              simp at h
            · rintro (h | ⟨r, hr, hcond⟩)
              · simp at h
              · injection hr with hre
                subst hre
                rcases hcond with h1 | h2 | hex
                · exact absurd hst h1
                · exact absurd h2 hemp
                · exact absurd hex hrdy
          · intro h
            simp at h
          · intro rd hrd
            simp only [Option.some.injEq] at hrd
            subst hrd
            exact ⟨rfl, rfl,
              (nextRound { room with status := Status.playing } item now roundMs interMs).2,
              getRoom_updateRoom_self hg _, rfl, rfl⟩

/-- Each player re-readies after a reset: the registry after a sequence of
`setReady(code, id, true)` calls, one per id. -/
def applyReadyAll (rs : Rooms) (code : String) (ids : List String) : Rooms :=
  ids.foldl (fun acc pid => (setReady acc code pid true).2) rs

/-- Players-list image of the same sequence of `setReady` calls. -/
def readyPlayers (ps : List Player) (ids : List String) : List Player :=
  ids.foldl
    (fun acc pid => acc.map (fun p => if p.id == pid then { p with ready := true } else p)) ps

theorem setReady_lobby {rs : Rooms} {code : String} {room : Room} (pid : String)
    (hroom : getRoom rs code = some room) (hst : room.status = Status.lobby) :
    (setReady rs code pid true).2 =
      updateRoom rs code { room with
        players := room.players.map
          (fun p => if p.id == pid then { p with ready := true } else p) } := by
  unfold setReady
  rw [hroom]
  simp [bne, hst]

theorem applyReadyAll_get (code : String) :
    ∀ (ids : List String) (rs : Rooms) (room : Room),
      getRoom rs code = some room → room.status = Status.lobby →
      getRoom (applyReadyAll rs code ids) code =
        some { room with players := readyPlayers room.players ids } := by
  intro ids
  induction ids with
  | nil =>
    intro rs room h _
    simpa [applyReadyAll, readyPlayers] using h
  | cons pid t ih =>
    intro rs room h hst
    have hstep := setReady_lobby pid h hst
    have h1 : getRoom ((setReady rs code pid true).2) code =
        some { room with players := room.players.map (fun p => if p.id == pid then { p with ready := true } else p) } := by
      rw [hstep]
      exact getRoom_updateRoom_self h _
    have h2 := ih ((setReady rs code pid true).2) _ h1 hst
    simpa [applyReadyAll, readyPlayers] using h2

theorem readyPlayers_mem :
    ∀ (ids : List String) (ps : List Player), ∀ r ∈ readyPlayers ps ids,
      ∃ p ∈ ps, r = if p.id ∈ ids then { p with ready := true } else p := by
  intro ids
  induction ids with
  | nil =>
    intro ps r hr
    exact ⟨r, hr, by simp⟩
  | cons pid t ih =>
    intro ps r hr
    have hr' : r ∈ readyPlayers
        (ps.map (fun p => if p.id == pid then { p with ready := true } else p)) t := hr
    obtain ⟨p1, hp1, hre⟩ := ih _ r hr'
    obtain ⟨p, hp, hpe⟩ := List.mem_map.mp hp1
    by_cases hid : p.id = pid
    · have hp1e : p1 = { p with ready := true } := by rw [← hpe]; simp [hid]
      refine ⟨p, hp, ?_⟩
      have hmem : p.id ∈ pid :: t := by simp [hid]
      rw [if_pos hmem, hre, hp1e]
      split <;> rfl
    · have hp1e : p1 = p := by rw [← hpe]; simp [hid]
      refine ⟨p, hp, ?_⟩
      rw [hre, hp1e]
      by_cases h2 : p.id ∈ t
      · rw [if_pos h2, if_pos (by simp [h2])]
      · rw [if_neg h2, if_neg (by simp [hid, h2])]

theorem readyPlayers_ready (ps : List Player) (ids : List String)
    (hcov : ∀ p ∈ ps, p.id ∈ ids) :
    ∀ r ∈ readyPlayers ps ids, r.ready = true := by
  intro r hr
  obtain ⟨p, hp, hre⟩ := readyPlayers_mem ids ps r hr
  rw [hre, if_pos (hcov p hp)]

theorem readyPlayers_length :
    ∀ (ids : List String) (ps : List Player), (readyPlayers ps ids).length = ps.length := by
  intro ids
  induction ids with
  | nil => intro ps; rfl
  | cons pid t ih =>
    intro ps
    have : readyPlayers ps (pid :: t) = readyPlayers
        (ps.map (fun p => if p.id == pid then { p with ready := true } else p)) t := rfl
    rw [this, ih, List.length_map]

theorem startGame_succeeds_of_ready {rs : Rooms} {code : String} {room : Room}
    (item : Item) (now a b : Int)
    (hroom : getRoom rs code = some room) (hst : room.status = Status.lobby)
    (hne : room.players ≠ []) (hready : ∀ p ∈ room.players, p.ready = true) :
    (startGame rs code item now a b).1.isSome = true := by
  have hb : (room.status != Status.lobby) = false := by simp [bne, hst]
  have he : room.players.isEmpty = false := by simp [hne]
  have ha : room.players.all (fun p => p.ready) = true := List.all_eq_true.mpr hready
  unfold startGame
  rw [hroom]
  simp [hb, he, ha]

def sampleItem : Item := { id := "i1", text := "chidiya", image := none, flies := true }

def roomOver : Room :=
  { code := "44444"
    hostId := "p1"
    status := .game_over
    players := [{ samplePlayer with alive := false, ready := true, failedAtWord := some "chidiya", failedChoice := some Choice.not_ud }]
    round := some sampleRound
    winnerId := none
    settings := { roundMs := 4000, intermissionMs := 1000 } }

def rsOver : Rooms := [("44444", roomOver)]

/-- C8: from any status, `resetToLobby` sets the status to `lobby`, clears
`round` and `winnerId`, and resets every player to `alive = true`,
`ready = false` with `respondedAt`, `response`, `failedAtWord` and
`failedChoice` cleared; after every player readies up again (a `setReady`
per player id), `startGame` succeeds. -/
theorem spec_C8 (rs : Rooms) (code : String) (room : Room) (item : Item)
    (now roundMs interMs : Int)
    (hroom : getRoom rs code = some room) :
    ∃ room', resetToLobby rs code = (some room', updateRoom rs code room') ∧
      room'.status = Status.lobby ∧ room'.round = none ∧ room'.winnerId = none ∧
      (∀ p ∈ room'.players, p.alive = true ∧ p.ready = false ∧ p.respondedAt = none ∧
        p.response = none ∧ p.failedAtWord = none ∧ p.failedChoice = none) ∧
      (room.players ≠ [] →
        (startGame (applyReadyAll (resetToLobby rs code).2 code
          (room'.players.map (fun p => p.id))) code item now roundMs interMs).1.isSome = true) := by
  refine ⟨{ room with status := Status.lobby, round := none, winnerId := none, players := room.players.map (fun p => { p with alive := true, ready := false, respondedAt := none, response := none, failedAtWord := none, failedChoice := none }) }, ?_, rfl, rfl, rfl, ?_, ?_⟩
  · unfold resetToLobby
    rw [hroom]
  · intro p hp
    obtain ⟨q, hq, rfl⟩ := List.mem_map.mp hp
    exact ⟨rfl, rfl, rfl, rfl, rfl, rfl⟩
  · intro hne
    have hres : resetToLobby rs code = (some { room with status := Status.lobby, round := none, winnerId := none, players := room.players.map (fun p => { p with alive := true, ready := false, respondedAt := none, response := none, failedAtWord := none, failedChoice := none }) }, updateRoom rs code { room with status := Status.lobby, round := none, winnerId := none, players := room.players.map (fun p => { p with alive := true, ready := false, respondedAt := none, response := none, failedAtWord := none, failedChoice := none }) }) := by
      unfold resetToLobby
      rw [hroom]
    have hget : getRoom (resetToLobby rs code).2 code = some { room with status := Status.lobby, round := none, winnerId := none, players := room.players.map (fun p => { p with alive := true, ready := false, respondedAt := none, response := none, failedAtWord := none, failedChoice := none }) } := by
      rw [hres]
      exact getRoom_updateRoom_self hroom _
    have hra := applyReadyAll_get code
      (List.map (fun p => p.id) (room.players.map (fun p => { p with alive := true, ready := false, respondedAt := none, response := none, failedAtWord := none, failedChoice := none })))
      (resetToLobby rs code).2 _ hget rfl
    refine startGame_succeeds_of_ready item now roundMs interMs hra rfl ?_ ?_
    · intro hc
      apply hne
      have hlen := congrArg List.length hc
      rw [readyPlayers_length, List.length_map] at hlen
      exact List.length_eq_zero.mp (by simpa using hlen)
    · intro p hp
      exact readyPlayers_ready _ _ (fun q hq => List.mem_map_of_mem _ hq) p hp

theorem spec_C8_witness :
    getRoom rsOver "44444" = some roomOver ∧
    (∃ room', resetToLobby rsOver "44444" = (some room', updateRoom rsOver "44444" room') ∧
      room'.status = Status.lobby ∧ room'.round = none ∧ room'.winnerId = none ∧
      (∀ p ∈ room'.players, p.alive = true ∧ p.ready = false ∧ p.respondedAt = none ∧
        p.response = none ∧ p.failedAtWord = none ∧ p.failedChoice = none) ∧
      (roomOver.players ≠ [] →
        (startGame (applyReadyAll (resetToLobby rsOver "44444").2 "44444"
          (room'.players.map (fun p => p.id))) "44444" sampleItem 5 4000 1000).1.isSome = true)) :=
  ⟨rfl, spec_C8 rsOver "44444" roomOver sampleItem 5 4000 1000 rfl⟩

theorem lookup_append_self {l : List (String × Choice)} {pid : String}
    (h : List.lookup pid l = none) (c : Choice) :
    List.lookup pid (l ++ [(pid, c)]) = some c := by
  induction l with
  | nil => simp [List.lookup]
  | cons e t ih =>
    rcases e with ⟨k, v⟩
    rw [List.cons_append, List.lookup_cons] at *
    cases hk : (pid == k)
    · rw [hk] at h
      exact ih h
    · rw [hk] at h
      simp at h

/-- C3: `submitAnswer` rejects (returning `false` and leaving the room
unchanged) iff there is no current round, the player is unknown or not
alive, `serverTs` lies outside the closed window `[roundStartTs,
deadlineTs]`, or the player already has a recorded response; on acceptance
it records `choice` and `respondedAt = serverTs` for that player, and a
second call by the same player is rejected and changes nothing. -/
theorem spec_C3 (room : Room) (pid : String) (choice : Choice) (serverTs : Int) :
    ((submitAnswer room pid choice serverTs).1 = false ↔
      room.round = none ∨
      ∃ rd, room.round = some rd ∧
        (findPlayer room.players pid = none ∨
         (∃ p, findPlayer room.players pid = some p ∧ p.alive = false) ∨
         serverTs < rd.roundStartTs ∨ rd.deadlineTs < serverTs ∨
         (List.lookup pid rd.responses).isSome = true)) ∧
    ((submitAnswer room pid choice serverTs).1 = false →
      (submitAnswer room pid choice serverTs).2 = room) ∧
    ((submitAnswer room pid choice serverTs).1 = true →
      ∃ rd p, room.round = some rd ∧ findPlayer room.players pid = some p ∧
        (∃ rd', (submitAnswer room pid choice serverTs).2.round = some rd' ∧
          List.lookup pid rd'.responses = some choice) ∧
        findPlayer (submitAnswer room pid choice serverTs).2.players pid =
          some { p with response := some choice, respondedAt := some serverTs }) ∧
    (∀ choice2 ts2, (submitAnswer room pid choice serverTs).1 = true →
      (submitAnswer (submitAnswer room pid choice serverTs).2 pid choice2 ts2).1 = false ∧
      (submitAnswer (submitAnswer room pid choice serverTs).2 pid choice2 ts2).2 =
        (submitAnswer room pid choice serverTs).2) := by
  rcases hr : room.round with _ | rd
  · have hsa : submitAnswer room pid choice serverTs = (false, room) := by
      unfold submitAnswer
      rw [hr]
    rw [hsa]
    exact ⟨⟨fun _ => Or.inl rfl, fun _ => rfl⟩, fun _ => rfl,
      fun h => absurd h (by simp), fun c2 ts2 h => absurd h (by simp)⟩
  · rcases hp : findPlayer room.players pid with _ | p
    · have hsa : submitAnswer room pid choice serverTs = (false, room) := by
        unfold submitAnswer
        rw [hr, hp]
      rw [hsa]
      exact ⟨⟨fun _ => Or.inr ⟨rd, rfl, Or.inl rfl⟩, fun _ => rfl⟩, fun _ => rfl,
        fun h => absurd h (by simp), fun c2 ts2 h => absurd h (by simp)⟩
    · cases halive : p.alive
      · have hsa : submitAnswer room pid choice serverTs = (false, room) := by
          unfold submitAnswer
          rw [hr, hp]
          simp [halive]
        rw [hsa]
        exact ⟨⟨fun _ => Or.inr ⟨rd, rfl, Or.inr (Or.inl ⟨p, rfl, halive⟩)⟩, fun _ => rfl⟩,
          fun _ => rfl, fun h => absurd h (by simp), fun c2 ts2 h => absurd h (by simp)⟩
      · by_cases h1 : serverTs < rd.roundStartTs
        · have hsa : submitAnswer room pid choice serverTs = (false, room) := by
            unfold submitAnswer
            rw [hr, hp]
            simp [halive, h1]
          rw [hsa]
          exact ⟨⟨fun _ => Or.inr ⟨rd, rfl, Or.inr (Or.inr (Or.inl h1))⟩, fun _ => rfl⟩,
            fun _ => rfl, fun h => absurd h (by simp), fun c2 ts2 h => absurd h (by simp)⟩
        · by_cases h2 : rd.deadlineTs < serverTs
          · have hsa : submitAnswer room pid choice serverTs = (false, room) := by
              unfold submitAnswer
              rw [hr, hp]
              simp [halive, h1, h2]
            rw [hsa]
            exact ⟨⟨fun _ => Or.inr ⟨rd, rfl, Or.inr (Or.inr (Or.inr (Or.inl h2)))⟩,
              fun _ => rfl⟩, fun _ => rfl, fun h => absurd h (by simp),
              fun c2 ts2 h => absurd h (by simp)⟩
          · cases h3 : (List.lookup pid rd.responses).isSome
            · have hsa : submitAnswer room pid choice serverTs =
                  (true, { room with
                    round := some { rd with responses := rd.responses ++ [(pid, choice)] }
                    players := room.players.map (fun q => if q.id == pid then { q with response := some choice, respondedAt := some serverTs } else q) }) := by
                unfold submitAnswer
                rw [hr, hp]
                simp [halive, h1, h2, h3]
              have hlknone : List.lookup pid rd.responses = none :=
                Option.not_isSome_iff_eq_none.mp (by simp [h3])
              have hlk : List.lookup pid (rd.responses ++ [(pid, choice)]) = some choice :=
                lookup_append_self hlknone choice
              have hmem' : List.find? (fun q => q.id == pid) room.players = some p := hp
              have hpid0 := List.find?_some hmem'
              have hf : ∀ q : Player,
                  ((fun q => if q.id == pid then { q with response := some choice, respondedAt := some serverTs } else q) q).id = q.id := by
                intro q
                dsimp only
                split <;> rfl
              rw [hsa]
              refine ⟨⟨fun h => absurd h (by simp), ?_⟩, fun h => absurd h (by simp),
                fun _ => ⟨rd, p, rfl, rfl, ⟨_, rfl, hlk⟩, ?_⟩, fun c2 ts2 _ => ?_⟩
              · rintro (h | ⟨rd0, hrd0, hcond⟩)
                · simp at h
                · injection hrd0 with hre
                  subst hre
                  rcases hcond with hc | ⟨p0, hp0, hal0⟩ | hc | hc | hc
                  · simp at hc
                  · injection hp0 with hpe
                    subst hpe
                    rw [halive] at hal0
                    simp at hal0
                  · exact absurd hc h1
                  · exact absurd hc h2
                  · rw [h3] at hc
                    simp at hc
              · show findPlayer (room.players.map _) pid = _
                rw [findPlayer_map_of_id hf, hp]
                simp only [Option.map_some']
                rw [if_pos hpid0]
              · constructor
                · show (submitAnswer _ pid c2 ts2).1 = false
                  unfold submitAnswer
                  dsimp only
                  rw [findPlayer_map_of_id hf, hp]
                  simp only [Option.map_some']
                  rw [if_pos hpid0]
                  by_cases hc1 : ts2 < rd.roundStartTs
                  · simp [hc1]
                  · by_cases hc2 : rd.deadlineTs < ts2
                    · simp [hc1, hc2]
                    · simp [hc1, hc2, hlk]
                · show (submitAnswer _ pid c2 ts2).2 = _
                  unfold submitAnswer
                  dsimp only
                  rw [findPlayer_map_of_id hf, hp]
                  simp only [Option.map_some']
                  rw [if_pos hpid0]
                  by_cases hc1 : ts2 < rd.roundStartTs
                  · simp [hc1]
                  · by_cases hc2 : rd.deadlineTs < ts2
                    · simp [hc1, hc2]
                    · simp [hc1, hc2, hlk]
            · have hsa : submitAnswer room pid choice serverTs = (false, room) := by
                unfold submitAnswer
                rw [hr, hp]
                simp [halive, h1, h2, h3]
              rw [hsa]
              exact ⟨⟨fun _ => Or.inr ⟨rd, rfl, Or.inr (Or.inr (Or.inr (Or.inr h3)))⟩,
                fun _ => rfl⟩, fun _ => rfl, fun h => absurd h (by simp),
                fun c2 ts2 h => absurd h (by simp)⟩

theorem findPlayer_of_mem_nodup {ps : List Player}
    (hnd : (ps.map (fun p => p.id)).Nodup) {p : Player} (hp : p ∈ ps) :
    findPlayer ps p.id = some p := by
  unfold findPlayer
  induction ps with
  | nil => simp at hp
  | cons a t ih =>
    rcases List.mem_cons.mp hp with rfl | hpt
    · rw [List.find?_cons_of_pos _ (by simp)]
    · have hane : a.id ≠ p.id := by
        intro he
        have : a.id ∈ t.map (fun p => p.id) := he ▸ List.mem_map_of_mem _ hpt
        exact (List.nodup_cons.mp hnd).1 this
      rw [List.find?_cons_of_neg _ (by simp [hane])]
      exact ih (List.nodup_cons.mp hnd).2 hpt

theorem lookup_map_key {β : Type} (g : Player → β) {ps : List Player}
    (hnd : (ps.map (fun p => p.id)).Nodup) {p : Player} (hp : p ∈ ps) :
    List.lookup p.id (ps.map (fun q => (q.id, g q))) = some (g p) := by
  induction ps with
  | nil => simp at hp
  | cons a t ih =>
    rcases List.mem_cons.mp hp with rfl | hpt
    · rw [List.map_cons, List.lookup_cons]
      simp
    · have hane : a.id ≠ p.id := by
        intro he
        have : a.id ∈ t.map (fun p => p.id) := he ▸ List.mem_map_of_mem _ hpt
        exact (List.nodup_cons.mp hnd).1 this
      rw [List.map_cons, List.lookup_cons]
      have hb : (p.id == a.id) = false := by
        simp only [beq_eq_false_iff_ne, ne_eq]
        exact fun he => hane he.symm
      rw [hb]
      exact ih (List.nodup_cons.mp hnd).2 hpt

theorem settleRound_eliminated {room : Room} {rd : Round} (ts : Int)
    (hrd : room.round = some rd) :
    (settleRound room ts).1.eliminated =
      (room.players.filter (fun p => p.alive && elimB rd p)).map (fun p => p.id) := by
  unfold settleRound
  rw [hrd]

theorem settleRound_survivors {room : Room} {rd : Round} (ts : Int)
    (hrd : room.round = some rd) :
    (settleRound room ts).1.survivors =
      (room.players.filter (fun p => p.alive && !elimB rd p)).map (fun p => p.id) := by
  unfold settleRound
  rw [hrd]

theorem settleRound_perPlayer {room : Room} {rd : Round} (ts : Int)
    (hrd : room.round = some rd) :
    (settleRound room ts).1.summary.perPlayer =
      room.players.map (fun p => (p.id, settleDetail rd p)) := by
  unfold settleRound
  rw [hrd]

theorem settleRound_players {room : Room} {rd : Round} (ts : Int)
    (hrd : room.round = some rd) :
    (settleRound room ts).2.players = room.players.map (settlePlayer rd) := by
  unfold settleRound
  rw [hrd]
  dsimp only
  split <;> rfl

theorem settleRound_round (room : Room) (ts : Int) :
    (settleRound room ts).2.round = room.round := by
  unfold settleRound
  rcases hrd : room.round with _ | rd
  · exact hrd
  · dsimp only
    split <;> rfl

theorem settleRound_game_over {room : Room} {rd : Round} (ts : Int)
    (hrd : room.round = some rd)
    (hle : ((room.players.map (settlePlayer rd)).filter (fun p => p.alive)).length ≤ 1) :
    (settleRound room ts).2.status = Status.game_over ∧
    (settleRound room ts).2.winnerId =
      ((room.players.map (settlePlayer rd)).filter (fun p => p.alive)).head?.map
        (fun p => p.id) := by
  unfold settleRound
  rw [hrd]
  dsimp only
  rw [if_pos hle]
  exact ⟨rfl, rfl⟩

theorem settlePlayer_dead {rd : Round} {p : Player} (h : p.alive = false) :
    settlePlayer rd p = p := by
  unfold settlePlayer
  simp [h]

theorem settlePlayer_id (rd : Round) (p : Player) : (settlePlayer rd p).id = p.id := by
  unfold settlePlayer
  split
  · rfl
  · split <;> rfl

theorem settleRound_nodup {room : Room} {rd : Round} (ts : Int)
    (hrd : room.round = some rd)
    (hnd : (room.players.map (fun p => p.id)).Nodup) :
    ((settleRound room ts).2.players.map (fun p => p.id)).Nodup := by
  rw [settleRound_players ts hrd]
  have : (room.players.map (settlePlayer rd)).map (fun p => p.id) =
      room.players.map (fun p => p.id) := by
    rw [List.map_map]
    exact List.map_congr_left (fun p _ => settlePlayer_id rd p)
  rw [this]
  exact hnd

/-- C4: `settleRound` is idempotent for already-eliminated players: a player
with `alive = false` on entry appears in the summary with `correct = false`,
`inTime = true`, is in neither `eliminated` nor `survivors`, and their record
(including `failedAtWord`/`failedChoice`) is untouched; set failure fields
are never overwritten, and a second `settleRound` without an intervening
`nextRound` leaves every already-eliminated player's record unchanged. -/
theorem spec_C4 (room : Room) (rd : Round) (ts ts2 : Int)
    (hrd : room.round = some rd)
    (hnd : (room.players.map (fun p => p.id)).Nodup) :
    (∀ p ∈ room.players, p.alive = false →
      List.lookup p.id (settleRound room ts).1.summary.perPlayer =
        some { choice := respOf rd p, correct := false, inTime := true } ∧
      p.id ∉ (settleRound room ts).1.eliminated ∧
      p.id ∉ (settleRound room ts).1.survivors ∧
      findPlayer (settleRound room ts).2.players p.id = some p) ∧
    (∀ p ∈ room.players,
      (p.failedAtWord ≠ none → (settlePlayer rd p).failedAtWord = p.failedAtWord) ∧
      (p.failedChoice ≠ none → (settlePlayer rd p).failedChoice = p.failedChoice)) ∧
    (∀ p ∈ (settleRound room ts).2.players, p.alive = false →
      findPlayer (settleRound (settleRound room ts).2 ts2).2.players p.id = some p) := by
  refine ⟨?_, ?_, ?_⟩
  · intro p hp hdead
    refine ⟨?_, ?_, ?_, ?_⟩
    · rw [settleRound_perPlayer ts hrd, lookup_map_key (settleDetail rd) hnd hp]
      unfold settleDetail
      simp [hdead]
    · rw [settleRound_eliminated ts hrd]
      intro hmem
      obtain ⟨q, hqf, hqid⟩ := List.mem_map.mp hmem
      obtain ⟨hqmem, hqp⟩ := List.mem_filter.mp hqf
      obtain rfl := List.inj_on_of_nodup_map hnd hqmem hp hqid
      rw [hdead] at hqp
      simp at hqp
    · rw [settleRound_survivors ts hrd]
      intro hmem
      obtain ⟨q, hqf, hqid⟩ := List.mem_map.mp hmem
      obtain ⟨hqmem, hqp⟩ := List.mem_filter.mp hqf
      obtain rfl := List.inj_on_of_nodup_map hnd hqmem hp hqid
      rw [hdead] at hqp
      simp at hqp
    · rw [settleRound_players ts hrd,
        findPlayer_map_of_id (settlePlayer_id rd),
        findPlayer_of_mem_nodup hnd hp]
      simp [settlePlayer_dead hdead]
  · intro p hp
    constructor
    · intro hfw
      unfold settlePlayer
      split
      · rfl
      · split
        · show (if p.failedAtWord.isNone then some rd.itemText else p.failedAtWord) = _
          rw [if_neg (by simp [Option.isNone_iff_eq_none, hfw])]
        · rfl
    · intro hfc
      unfold settlePlayer
      split
      · rfl
      · split
        · show (if p.failedChoice.isNone then respOf rd p else p.failedChoice) = _
          rw [if_neg (by simp [Option.isNone_iff_eq_none, hfc])]
        · rfl
  · intro p hp hdead
    have hrd2 : (settleRound room ts).2.round = some rd := by
      rw [settleRound_round]
      exact hrd
    have hnd2 := settleRound_nodup ts hrd hnd
    rw [settleRound_players ts2 hrd2,
      findPlayer_map_of_id (settlePlayer_id rd),
      findPlayer_of_mem_nodup hnd2 hp]
    simp [settlePlayer_dead hdead]

def deadPlayer : Player :=
  { id := "p2", name := "Bob", avatar := "B", ready := false, alive := false,
    respondedAt := none, response := none, failedAtWord := some "machhli",
    failedChoice := some Choice.not_ud }

def roomMix : Room :=
  { code := "55555"
    hostId := "p1"
    status := .playing
    players := [samplePlayer, deadPlayer]
    round := some sampleRound
    settings := { roundMs := 4000, intermissionMs := 1000 } }

theorem spec_C4_witness :
    (roomMix.round = some sampleRound ∧
      (roomMix.players.map (fun p => p.id)).Nodup) ∧
    (∀ p ∈ roomMix.players, p.alive = false →
      List.lookup p.id (settleRound roomMix 9).1.summary.perPlayer =
        some { choice := respOf sampleRound p, correct := false, inTime := true } ∧
      p.id ∉ (settleRound roomMix 9).1.eliminated ∧
      p.id ∉ (settleRound roomMix 9).1.survivors ∧
      findPlayer (settleRound roomMix 9).2.players p.id = some p) :=
  ⟨⟨rfl, by decide⟩, (spec_C4 roomMix sampleRound 9 10 rfl (by decide)).1⟩

/-- The elimination condition in the words of the specification ("no
recorded response, a response unequal to the correct answer, or a
`respondedAt` greater than `deadlineTs`", with the correct answer `ud` iff
the round's `flies` flag is set), to be compared with the code's test. -/
def specEliminationCond (rd : Round) (p : Player) : Prop :=
  respOf rd p = none ∨
  respOf rd p ≠ some (if rd.flies then Choice.ud else Choice.not_ud) ∨
  ∃ t, p.respondedAt = some t ∧ rd.deadlineTs < t

instance (rd : Round) (p : Player) : Decidable (specEliminationCond rd p) := by
  unfold specEliminationCond
  rcases p.respondedAt with _ | t
  · exact inferInstanceAs (Decidable (_ ∨ _ ∨ ∃ t, (none : Option Int) = some t ∧ _))
  · exact inferInstanceAs (Decidable (_ ∨ _ ∨ ∃ u, some t = some u ∧ _))

theorem elimB_iff_spec {rd : Round} {p : Player}
    (hresp : (respOf rd p).isSome = true → p.respondedAt.isSome = true) :
    elimB rd p = true ↔ specEliminationCond rd p := by
  unfold elimB specEliminationCond respOk respInTime correctAnswer
  constructor
  · intro h
    simp only [Bool.or_eq_true] at h
    rcases h with (h | h) | h
    · exact Or.inl (Option.isNone_iff_eq_none.mp h)
    · refine Or.inr (Or.inl ?_)
      intro he
      rw [he] at h
      simp at h
    · rcases hra : p.respondedAt with _ | t
      · left
        rcases hro : respOf rd p with _ | c
        · rfl
        · have := hresp (by simp [hro])
          rw [hra] at this
          simp at this
      · refine Or.inr (Or.inr ⟨t, rfl, ?_⟩)
        rw [hra] at h
        simp only [Bool.not_eq_true'] at h
        exact not_le.mp (by simpa using h)
  · intro h
    simp only [Bool.or_eq_true]
    rcases h with h | h | ⟨t, hra, hlt⟩
    · exact Or.inl (Or.inl (by simp [h]))
    · refine Or.inl (Or.inr ?_)
      simp only [Bool.not_eq_true']
      exact beq_eq_false_iff_ne.mpr h
    · refine Or.inr ?_
      rw [hra]
      simp only [Bool.not_eq_true']
      exact decide_eq_false (not_le.mpr hlt)

/-- C2: for a room with a current round, `settleRound` eliminates exactly
the players on entry alive that have no recorded response, a response
unequal to the correct answer (`ud` iff `flies`), or a late `respondedAt`;
the others are the survivors; afterwards, if at most one player is alive,
the status becomes `game_over` and `winnerId` is the sole survivor's id
(unset when nobody survived).  Stated for rooms where a recorded response
comes with a recorded `respondedAt`, as `submitAnswer` guarantees. -/
theorem spec_C2 (room : Room) (rd : Round) (ts : Int)
    (hrd : room.round = some rd)
    (hnd : (room.players.map (fun p => p.id)).Nodup)
    (hresp : ∀ p ∈ room.players, (respOf rd p).isSome = true → p.respondedAt.isSome = true) :
    (∀ p ∈ room.players, p.alive = true →
      (p.id ∈ (settleRound room ts).1.eliminated ↔ specEliminationCond rd p) ∧
      (p.id ∈ (settleRound room ts).1.survivors ↔ ¬ specEliminationCond rd p) ∧
      ((settlePlayer rd p).alive = false ↔ specEliminationCond rd p) ∧
      findPlayer (settleRound room ts).2.players p.id = some (settlePlayer rd p)) ∧
    (((settleRound room ts).2.players.filter (fun p => p.alive)).length ≤ 1 →
      (settleRound room ts).2.status = Status.game_over ∧
      (settleRound room ts).2.winnerId =
        ((settleRound room ts).2.players.filter (fun p => p.alive)).head?.map
          (fun p => p.id)) := by
  constructor
  · intro p hp halive
    have hiff := elimB_iff_spec (hresp p hp)
    refine ⟨?_, ?_, ?_, ?_⟩
    · rw [settleRound_eliminated ts hrd]
      constructor
      · intro hmem
        obtain ⟨q, hqf, hqid⟩ := List.mem_map.mp hmem
        obtain ⟨hqmem, hqp⟩ := List.mem_filter.mp hqf
        obtain rfl := List.inj_on_of_nodup_map hnd hqmem hp hqid
        rw [Bool.and_eq_true] at hqp
        exact hiff.mp hqp.2
      · intro hs
        exact List.mem_map_of_mem _ (List.mem_filter.mpr
          ⟨hp, by rw [Bool.and_eq_true]; exact ⟨halive, hiff.mpr hs⟩⟩)
    · rw [settleRound_survivors ts hrd]
      constructor
      · intro hmem hs
        obtain ⟨q, hqf, hqid⟩ := List.mem_map.mp hmem
        obtain ⟨hqmem, hqp⟩ := List.mem_filter.mp hqf
        obtain rfl := List.inj_on_of_nodup_map hnd hqmem hp hqid
        rw [Bool.and_eq_true, Bool.not_eq_true'] at hqp
        rw [hiff.mpr hs] at hqp
        simp at hqp
      · intro hns
        refine List.mem_map_of_mem _ (List.mem_filter.mpr ⟨hp, ?_⟩)
        rw [Bool.and_eq_true]
        refine ⟨halive, ?_⟩
        rw [Bool.not_eq_true']
        cases he : elimB rd p
        · rfl
        · exact absurd (hiff.mp he) hns
    · cases he : elimB rd p
      · have hsp : settlePlayer rd p = p := by
          unfold settlePlayer
          simp [halive, he]
        rw [hsp, halive]
        constructor
        · intro h
          simp at h
        · intro hs
          have := hiff.mpr hs
          rw [he] at this
          simp at this
      · have hsp : (settlePlayer rd p).alive = false := by
          unfold settlePlayer
          simp [halive, he]
        rw [hsp]
        exact ⟨fun _ => hiff.mp he, fun _ => rfl⟩
    · rw [settleRound_players ts hrd,
        findPlayer_map_of_id (settlePlayer_id rd),
        findPlayer_of_mem_nodup hnd hp]
      simp
  · intro hle
    rw [settleRound_players ts hrd] at hle
    have hgo := settleRound_game_over ts hrd hle
    rw [settleRound_players ts hrd]
    exact hgo

def trioRound : Round :=
  { itemId := "i1"
    itemText := "chidiya"
    itemImage := none
    flies := true
    roundStartTs := 0
    deadlineTs := 4000
    responses := [("p1", Choice.ud), ("p2", Choice.not_ud)] }

def trioP1 : Player :=
  { id := "p1", name := "A", avatar := "A", ready := true, alive := true,
    respondedAt := some 100, response := some Choice.ud }

def trioP2 : Player :=
  { id := "p2", name := "B", avatar := "B", ready := true, alive := true,
    respondedAt := some 200, response := some Choice.not_ud }

def trioP3 : Player :=
  { id := "p3", name := "C", avatar := "C", ready := true, alive := true }

def roomTrio : Room :=
  { code := "66666"
    hostId := "p1"
    status := .playing
    players := [trioP1, trioP2, trioP3]
    round := some trioRound
    settings := { roundMs := 4000, intermissionMs := 1000 } }

theorem spec_C2_witness :
    (roomTrio.round = some trioRound ∧
      (roomTrio.players.map (fun p => p.id)).Nodup ∧
      (∀ p ∈ roomTrio.players, (respOf trioRound p).isSome = true →
        p.respondedAt.isSome = true) ∧
      ((settleRound roomTrio 4200).2.players.filter (fun p => p.alive)).length ≤ 1) ∧
    ((settleRound roomTrio 4200).2.status = Status.game_over ∧
      (settleRound roomTrio 4200).2.winnerId =
        ((settleRound roomTrio 4200).2.players.filter (fun p => p.alive)).head?.map
          (fun p => p.id)) :=
  ⟨⟨rfl, by decide, by decide, by decide⟩,
    (spec_C2 roomTrio trioRound 4200 rfl (by decide) (by decide)).2 (by decide)⟩

theorem playingHasRound_updateRoom {rs : Rooms} {code : String} {room' : Room}
    (hinv : playingHasRound rs)
    (h : room'.status = Status.playing → room'.round.isSome = true) :
    playingHasRound (updateRoom rs code room') := by
  intro e he
  unfold updateRoom at he
  obtain ⟨a, ha, hae⟩ := List.mem_map.mp he
  by_cases hc : (a.1 == code) = true
  · rw [if_pos hc] at hae
    rw [← hae]
    exact h
  · rw [if_neg hc] at hae
    rw [← hae]
    exact hinv a ha

theorem playingHasRound_filter {rs : Rooms} (hinv : playingHasRound rs)
    (f : String × Room → Bool) : playingHasRound (rs.filter f) :=
  fun e he => hinv e (List.mem_filter.mp he).1

theorem submitAnswer_status (room : Room) (pid : String) (c : Choice) (ts : Int) :
    (submitAnswer room pid c ts).2.status = room.status := by
  unfold submitAnswer
  rcases hr : room.round with _ | rd
  · rfl
  · rcases hp : findPlayer room.players pid with _ | p
    · rfl
    · dsimp only
      split
      · rfl
      · split
        · rfl
        · split
          · rfl
          · split
            · rfl
            · rfl

theorem submitAnswer_round_isSome (room : Room) (pid : String) (c : Choice) (ts : Int) :
    (submitAnswer room pid c ts).2.round.isSome = room.round.isSome := by
  unfold submitAnswer
  rcases hr : room.round with _ | rd
  · rw [hr]
  · rcases hp : findPlayer room.players pid with _ | p
    · rw [hr]
    · dsimp only
      split
      · rw [hr]
      · split
        · rw [hr]
        · split
          · rw [hr]
          · split
            · rw [hr]
            · rfl

theorem settleRound_status_playing (room : Room) (ts : Int) :
    (settleRound room ts).2.status = Status.playing → room.status = Status.playing := by
  unfold settleRound
  rcases h : room.round with _ | rd
  · exact fun h2 => h2
  · dsimp only
    split
    · intro h2
      exact absurd h2 (by simp)
    · exact fun h2 => h2

/-- C1 (amended): every core operation preserves the property that each
live room in `playing` status has a current round.  (The converse — a
present round forces `playing` — fails: see the counterexample.) -/
theorem spec_C1_amended (rs : Rooms) (op : Op) (hinv : playingHasRound rs) :
    playingHasRound (applyOp rs op) := by
  cases op with
  | create code hostId hostName avatar =>
    show playingHasRound (createRoom rs code hostId hostName avatar).2
    unfold createRoom
    dsimp only
    split
    · exact hinv
    · intro e he
      rcases List.mem_append.mp he with h | h
      · exact hinv e h
      · have he2 : e = (code, { code := code, hostId := hostId, status := .lobby, players := [{ id := hostId, name := hostName, avatar := avatar, ready := false, alive := true }], settings := { roundMs := 4000, intermissionMs := 1000 } }) := by
          simpa using h
        rw [he2]
        intro hst
        exact Status.noConfusion hst
  | join code id name avatar =>
    show playingHasRound (joinRoom rs code id name avatar).2
    unfold joinRoom
    cases hg : getRoom rs code with
    | none => exact hinv
    | some room =>
      dsimp only
      split
      · exact hinv
      · exact playingHasRound_updateRoom hinv
          (fun hst => hinv (code, room) (getRoom_mem hg) hst)
  | leave code id =>
    show playingHasRound (leaveRoom rs code id).2
    unfold leaveRoom
    cases hg : getRoom rs code with
    | none => exact hinv
    | some room =>
      dsimp only
      split
      · exact playingHasRound_filter hinv _
      · exact playingHasRound_updateRoom hinv
          (fun hst => hinv (code, room) (getRoom_mem hg) hst)
  | ready code playerId b =>
    show playingHasRound (setReady rs code playerId b).2
    unfold setReady
    cases hg : getRoom rs code with
    | none => exact hinv
    | some room =>
      dsimp only
      split
      · exact hinv
      · exact playingHasRound_updateRoom hinv
          (fun hst => hinv (code, room) (getRoom_mem hg) hst)
  | settings code a b =>
    show playingHasRound (setSettings rs code a b).2
    unfold setSettings
    cases hg : getRoom rs code with
    | none => exact hinv
    | some room =>
      dsimp only
      split
      · exact hinv
      · exact playingHasRound_updateRoom hinv
          (fun hst => hinv (code, room) (getRoom_mem hg) hst)
  | start code item now a b =>
    show playingHasRound (startGame rs code item now a b).2
    unfold startGame
    cases hg : getRoom rs code with
    | none => exact hinv
    | some room =>
      dsimp only
      split
      · exact hinv
      · split
        · exact hinv
        · split
          · exact hinv
          · exact playingHasRound_updateRoom hinv (fun _ => rfl)
  | next code item now a b =>
    show playingHasRound (match getRoom rs code with
      | none => rs
      | some room => updateRoom rs code (nextRound room item now a b).2)
    cases hg : getRoom rs code with
    | none => exact hinv
    | some room => exact playingHasRound_updateRoom hinv (fun _ => rfl)
  | answer code playerId c ts =>
    show playingHasRound (match getRoom rs code with
      | none => rs
      | some room => updateRoom rs code (submitAnswer room playerId c ts).2)
    cases hg : getRoom rs code with
    | none => exact hinv
    | some room =>
      refine playingHasRound_updateRoom hinv (fun hst => ?_)
      rw [submitAnswer_round_isSome]
      refine hinv (code, room) (getRoom_mem hg) ?_
      rw [← submitAnswer_status room playerId c ts]
      exact hst
  | settle code ts =>
    show playingHasRound (match getRoom rs code with
      | none => rs
      | some room => updateRoom rs code (settleRound room ts).2)
    cases hg : getRoom rs code with
    | none => exact hinv
    | some room =>
      refine playingHasRound_updateRoom hinv (fun hst => ?_)
      rw [settleRound_round]
      exact hinv (code, room) (getRoom_mem hg) (settleRound_status_playing room ts hst)
  | reset code =>
    show playingHasRound (resetToLobby rs code).2
    unfold resetToLobby
    cases hg : getRoom rs code with
    | none => exact hinv
    | some room =>
      dsimp only
      refine playingHasRound_updateRoom hinv (fun hst => ?_)
      exact Status.noConfusion hst

theorem spec_C1_amended_witness :
    playingHasRound rsTwo ∧ playingHasRound (applyOp rsTwo (Op.settle "22222" 4200)) :=
  ⟨by decide, spec_C1_amended rsTwo (Op.settle "22222" 4200) (by decide)⟩

/-- Registry reached from scratch by createRoom, setReady, startGame,
settleRound: the lone player never answers, is eliminated, and the game
ends. -/
def rsC1 : Rooms :=
  applyOp (applyOp (applyOp (applyOp [] (Op.create "12345" "h" "Host" "A"))
    (Op.ready "12345" "h" true)) (Op.start "12345" sampleItem 10 4000 1000))
    (Op.settle "12345" 5000)

/-- C1 (counterexample): after `settleRound` ends the game, the room is
`game_over` but its `round` is still present, so "round present iff status
is playing" is violated by a live room reached through core operations. -/
theorem spec_C1_counterexample :
    ∃ room, getRoom rsC1 "12345" = some room ∧ room.status = Status.game_over ∧
      room.round.isSome = true ∧ ¬ roundIffPlaying room := by decide
